import Mathlib

/-!
Shallow embedding of the audio-visual composition pipeline of the
`poetry_reader` repository, and proofs of the properties its
specification states about it.

Each Lean definition mirrors one Python function of the source:
* `split_text_into_lines`, `write_silence_frames`, `processSegments` /
  `buildTimeline` — the segmenter loop of `main` (`generate_videos.py`);
* `parse_md_file` — markdown header parsing (the identical copies in
  `generate_videos.py` and `utils.py`);
* `_wrap_text`, `textwrap_wrap` — the text rasterizer's word wrap
  (`video_generator.py`);
* `fade_dur_actual`, `fadeOpacity`, `textLayers` — the subtitle fade
  compositing of `create_video_with_subtitles` (`video_generator.py`);
* `_vertical_gradient`, `_horizontal_gradient`,
  `create_gradient_background` — the procedural gradient generator
  (`background_generator.py`).

Machine floats of the source are embedded as exact rationals (the spec
states its timing and interpolation properties "within floating
tolerance"); filesystem and TTS effects are passed in explicitly as
oracles (`env : ℕ → Option ℚ` gives, per line index, whether the
synthesized fragment file exists and, when it does, the measured clip
duration). A Python `ZeroDivisionError` is embedded as `Option.none`.
Python `str` operations are embedded structurally over `List Char` so
that every definition evaluates inside Lean's kernel.
-/

namespace PoetryReader

/-! ### Python string primitives -/

/-- Python's ASCII whitespace set, as tested by `str.strip()` /
`str.split()`. -/
def pyIsSpace (c : Char) : Bool :=
  c = ' ' ∨ c = '\t' ∨ c = '\n' ∨ c = '\r' ∨ c = '\x0b' ∨ c = '\x0c'

/-- `text.replace("\r\n", "\n").replace("\r", "\n")`: the two
left-to-right scans compose into this single pass (CRLF becomes LF,
then any remaining lone CR becomes LF). -/
def normalizeNewlines : List Char → List Char
  | [] => []
  | '\r' :: '\n' :: rest => '\n' :: normalizeNewlines rest
  | '\r' :: rest => '\n' :: normalizeNewlines rest
  | c :: rest => c :: normalizeNewlines rest

/-- Python `s.split("\n")`: always yields one more part than there are
separators (so `"".split("\n") == [""]`). -/
def splitOnNl : List Char → List (List Char)
  | [] => [[]]
  | '\n' :: rest => [] :: splitOnNl rest
  | c :: rest =>
    match splitOnNl rest with
    | [] => [[c]]
    | p :: ps => (c :: p) :: ps

/-- Python `s.strip()` (no argument): drop leading and trailing
whitespace. -/
def pyStrip (s : String) : String :=
  ⟨((s.data.dropWhile pyIsSpace).reverse.dropWhile pyIsSpace).reverse⟩

/-- Python `s.split()` (no argument): split on whitespace runs,
dropping empty parts. -/
def pyWords (s : String) : List String :=
  ((s.data.splitOnP pyIsSpace).map (fun l => (⟨l⟩ : String))).filter (· ≠ "")

/-- Python `" ".join(parts)`. -/
def pyJoin (parts : List String) : String :=
  String.intercalate " " parts

/-- Python `int()` applied to a float/rational: truncation toward
zero. -/
def pyInt (q : ℚ) : ℤ :=
  if q < 0 then ⌈q⌉ else ⌊q⌋

/-- Python `.lower()`, on the alphabet the header keywords can use
(ASCII letters and the accented capitals of the Spanish keywords). -/
def pyLowerChar (c : Char) : Char :=
  if 'A' ≤ c ∧ c ≤ 'Z' then Char.ofNat (c.toNat + 32)
  else if c = 'Á' then 'á'
  else if c = 'É' then 'é'
  else if c = 'Í' then 'í'
  else if c = 'Ó' then 'ó'
  else if c = 'Ú' then 'ú'
  else if c = 'Ñ' then 'ñ'
  else c

/-- Python `s.lower()`. -/
def pyLower (s : String) : String :=
  ⟨s.data.map pyLowerChar⟩

/-- Python `":" in s`. -/
def hasColon (s : String) : Bool :=
  s.data.contains ':'

/-- Python `s.split(":", 1)`: the part before the first colon and the
part after it (the caller only evaluates this when `":" in s`). -/
def splitColon1 (s : String) : String × String :=
  ((⟨s.data.takeWhile (· ≠ ':')⟩ : String),
   (⟨(s.data.dropWhile (· ≠ ':')).drop 1⟩ : String))

/-! ### Audio segmenter (`generate_videos.py`) -/

/-- A timeline segment as built by `main`:
`{"text": ..., "start": ..., "duration": ...}`. -/
structure Subtitle where
  text : String
  start : ℚ
  duration : ℚ
  deriving DecidableEq, Repr

/-- `split_text_into_lines` (generate_videos.py): normalize CR/CRLF to
LF and split on newlines, keeping empty lines. -/
def split_text_into_lines (text : String) : List String :=
  (splitOnNl (normalizeNewlines text.data)).map (fun l => (⟨l⟩ : String))

/-- The test `line.strip() == ""` used by `main` for blank lines. -/
def isBlank (s : String) : Bool :=
  pyStrip s == ""

/-- `write_silence_wav` (generate_videos.py) writes
`int(duration * framerate)` frames at `framerate`. -/
def write_silence_frames (duration : ℚ) (framerate : ℕ) : ℕ :=
  (pyInt (duration * framerate)).toNat

/-- Duration of the silence clip written for a blank line:
`write_silence_wav(frag_path, duration=0.5)` at the default 22050 Hz,
measured back as frame count over frame rate. -/
def silenceDur : ℚ :=
  (write_silence_frames (1/2) 22050 : ℚ) / 22050

/-- The segment-processing loop of `main` (generate_videos.py, lines
285–322): walk the enumerated lines with the running `start_time`.  A
blank line appends a silence segment of duration `silenceDur`; a
non-blank line appends a segment with the fragment's measured duration
when the fragment file exists (`env j = some d`), and is skipped with
`continue` when the file is missing (`env j = none`). -/
def processSegments (env : ℕ → Option ℚ) : List (ℕ × String) → ℚ → List Subtitle
  | [], _ => []
  | (j, line) :: rest, start_time =>
    if isBlank line then
      ⟨"", start_time, silenceDur⟩ :: processSegments env rest (start_time + silenceDur)
    else
      match env j with
      | none => processSegments env rest start_time
      | some d => ⟨line, start_time, d⟩ :: processSegments env rest (start_time + d)

/-- The subtitle timeline `main` builds for one poem body, given the
fragment-file oracle `env`. -/
def buildTimeline (env : ℕ → Option ℚ) (text : String) : List Subtitle :=
  processSegments env (split_text_into_lines text).enum 0

/-- The texts the segmenter loop keeps, line by line: blank lines give
`""`, non-blank lines give their own text when the fragment file
exists, and are dropped when it is missing. -/
def keptTexts (env : ℕ → Option ℚ) (en : List (ℕ × String)) : List String :=
  en.filterMap (fun p =>
    if isBlank p.2 then some ""
    else match env p.1 with
      | none => none
      | some _ => some p.2)

/-! ### Subtitle compositing (`video_generator.py`,
`create_video_with_subtitles`) -/

/-- `fade_dur_actual = min(fade_duration, dur / 4)` (video_generator.py,
line 506): the fade window, capped at a quarter of the segment. -/
def fade_dur_actual (fade_duration dur : ℚ) : ℚ :=
  min fade_duration (dur / 4)

/-- The per-frame opacity computed by `make_frame` inside
`create_video_with_subtitles` (video_generator.py, lines 510–521):
fade in over `[0, fade_dur)`, fade out over `(total_dur - fade_dur, d]`,
full opacity in between. -/
def fadeOpacity (fade_dur total_dur t : ℚ) : ℚ :=
  if t < fade_dur then t / fade_dur
  else if t > total_dur - fade_dur then (total_dur - t) / fade_dur
  else 1

/-- The subtitle entries for which `create_video_with_subtitles`
creates a text layer: the loop (video_generator.py, lines 483–540)
does `continue` on `not text or dur <= 0` and appends a clip for every
other entry, in order. -/
def textLayers (subtitles : List Subtitle) : List Subtitle :=
  subtitles.filter (fun sub => !(sub.text == "" || decide (sub.duration ≤ 0)))

/-! ### Word wrap (`video_generator.py`, `_wrap_text`)

The pixel measurement `_measure_text(draw, s, font)[0]` depends on the
loaded font, an external resource, so it is passed in as an oracle
`measure : String → ℕ`.  The code's own last-resort measurement
fallback is `len(s) * 10`. -/

/-- The greedy packing loop of `_wrap_text` (video_generator.py, lines
53–69): accumulate words into `current` while the measured width of
the joined candidate stays within `max_width`; emit the current line
otherwise.  At the end the (always non-empty) `current` is emitted. -/
def greedyLines (measure : String → ℕ) (max_width : ℕ) :
    List String → List String → List String
  | [], current => if current.isEmpty then [] else [pyJoin current]
  | word :: rest, current =>
    if current.isEmpty then greedyLines measure max_width rest [word]
    else if measure (pyJoin (current ++ [word])) ≤ max_width then
      greedyLines measure max_width rest (current ++ [word])
    else
      pyJoin current :: greedyLines measure max_width rest [word]

/-- CPython `textwrap.wrap(text, width, break_long_words=False)`
restricted to whitespace-separated, hyphen-free input (the only kind
`_wrap_text` feeds it): greedy character-count packing where a word
longer than `width` gets a line of its own. -/
def textwrapGreedy (width : ℕ) : List String → String → List String
  | [], current => if current = "" then [] else [current]
  | word :: rest, current =>
    if current = "" then textwrapGreedy width rest word
    else if current.length + 1 + word.length ≤ width then
      textwrapGreedy width rest (current ++ " " ++ word)
    else
      current :: textwrapGreedy width rest word

/-- `textwrap.wrap(text, width=chars_per_line, break_long_words=False)`. -/
def textwrap_wrap (width : ℕ) (text : String) : List String :=
  textwrapGreedy width (pyWords text) ""

/-- `_wrap_text` (video_generator.py, lines 48–82): greedy wrap, then,
when a maximum line count is given and exceeded, collapse the overflow
into the last permitted line; if that collapsed line is still too wide,
fall back to `textwrap.wrap` with a character budget derived from the
width of `"A"`. -/
def _wrap_text (measure : String → ℕ) (text : String) (max_width : ℕ)
    (max_lines : Option ℕ) : List String :=
  let words := pyWords text
  if words.isEmpty then [text]
  else
    let lines := greedyLines measure max_width words []
    match max_lines with
    | none => lines
    | some m =>
      if m ≠ 0 ∧ m < lines.length then
        let remaining := pyJoin (lines.drop (m - 1))
        if max_width < measure remaining then
          textwrap_wrap (max 10 (max_width / max 1 (measure "A"))) text
        else lines.take (m - 1) ++ [remaining]
      else lines

/-! ### Procedural gradient backgrounds (`background_generator.py`) -/

/-- An RGB triple, each channel `0–255`. -/
def RGB : Type := ℕ × ℕ × ℕ

instance : DecidableEq RGB := instDecidableEqProd

/-- `c1 * (1 - frac) + c2 * frac`, channel-wise, over exact
rationals. -/
def lerpColor (c1 c2 : RGB) (frac : ℚ) : ℚ × ℚ × ℚ :=
  ((c1.1 : ℚ) * (1 - frac) + (c2.1 : ℚ) * frac,
   (c1.2.1 : ℚ) * (1 - frac) + (c2.2.1 : ℚ) * frac,
   (c1.2.2 : ℚ) * (1 - frac) + (c2.2.2 : ℚ) * frac)

/-- Storing an interpolated float color into the `uint8` image buffer:
numpy's float-to-uint8 cast truncates toward zero. -/
def pixelOf (c : ℚ × ℚ × ℚ) : RGB :=
  ((pyInt c.1).toNat, (pyInt c.2.1).toNat, (pyInt c.2.2).toNat)

/-- The per-position color mapping shared by every gradient routine of
`background_generator.py`: `idx = int(t)`; when
`idx >= num_colors - 1`, clamp to `colors[-1]` (an `IndexError`, i.e.
`none`, on an empty palette); otherwise interpolate between
`colors[idx]` and `colors[idx + 1]` with weight `frac = t - idx`.
Every caller passes `t ≥ 0`. -/
def gradientColor (colors : List RGB) (t : ℚ) : Option RGB :=
  let idxZ := pyInt t
  let idx := idxZ.toNat
  if colors.length - 1 ≤ idx then colors.getLast?
  else
    match colors[idx]?, colors[idx + 1]? with
    | some c1, some c2 => some (pixelOf (lerpColor c1 c2 (t - (idxZ : ℚ))))
    | _, _ => none

/-- The row loop of `_vertical_gradient` (and, transposed, the column
loop of `_horizontal_gradient`): one full row of `width` copies of the
scanline color per position, failing if any color lookup fails. -/
def gradientRows (width : ℕ) (colors : List RGB) (toT : ℕ → ℚ) :
    List ℕ → Option (List (List RGB))
  | [] => some []
  | y :: ys =>
    match gradientColor colors (toT y), gradientRows width colors toT ys with
    | some c, some rows => some (List.replicate width c :: rows)
    | _, _ => none

/-- `_vertical_gradient` (background_generator.py, lines 122–141):
`t = y / (height - 1) * (num_colors - 1)` per row.  With `height = 0`
the loop body never runs (empty image); with `height = 1` the very
first row divides by zero (`ZeroDivisionError`, embedded as `none`) —
the denominator is not guarded. -/
def _vertical_gradient (width height : ℕ) (colors : List RGB) :
    Option (List (List RGB)) :=
  if height = 0 then some []
  else if height = 1 then none
  else gradientRows width colors
    (fun y => (y : ℚ) / ((height : ℚ) - 1) * ((colors.length : ℚ) - 1))
    (List.range height)

/-- The column colors of `_horizontal_gradient`:
`t = x / (width - 1) * (num_colors - 1)` per column. -/
def gradientCols (colors : List RGB) (toT : ℕ → ℚ) :
    List ℕ → Option (List RGB)
  | [] => some []
  | x :: xs =>
    match gradientColor colors (toT x), gradientCols colors toT xs with
    | some c, some cs => some (c :: cs)
    | _, _ => none

/-- `_horizontal_gradient` (background_generator.py, lines 144–163):
the buffer assigns column `x` everywhere, so the resulting image is
`height` identical rows, each listing the per-column colors.  As for
the vertical case, `width = 1` divides by zero. -/
def _horizontal_gradient (width height : ℕ) (colors : List RGB) :
    Option (List (List RGB)) :=
  if width = 0 then some (List.replicate height [])
  else if width = 1 then none
  else (gradientCols colors
      (fun x => (x : ℚ) / ((width : ℚ) - 1) * ((colors.length : ℚ) - 1))
      (List.range width)).map
    (fun col => List.replicate height col)

/-- `COLOR_PALETTES` (background_generator.py, lines 11–53), in
definition order. -/
def COLOR_PALETTES : List (String × List RGB) :=
  [("sunset", [(255, 94, 77), (255, 184, 140), (253, 216, 193)]),
   ("ocean", [(26, 42, 108), (58, 96, 115), (148, 187, 233)]),
   ("forest", [(22, 56, 48), (46, 125, 50), (129, 199, 132)]),
   ("lavender", [(94, 53, 177), (155, 81, 224), (206, 147, 216)]),
   ("rose", [(136, 14, 79), (194, 24, 91), (233, 30, 99)]),
   ("golden", [(255, 160, 0), (255, 213, 79), (255, 245, 157)]),
   ("midnight", [(13, 27, 42), (27, 38, 59), (65, 90, 119)]),
   ("peach", [(255, 138, 101), (255, 209, 163), (255, 234, 213)]),
   ("mint", [(0, 137, 123), (0, 188, 212), (128, 222, 234)]),
   ("autumn", [(191, 54, 12), (230, 81, 0), (255, 138, 101)]),
   ("tiktok_cyber", [(255, 0, 128), (128, 0, 255), (0, 255, 255)]),
   ("tiktok_sunset", [(255, 50, 100), (255, 150, 50), (255, 220, 100)]),
   ("tiktok_ocean", [(0, 150, 200), (0, 200, 255), (100, 220, 255)]),
   ("tiktok_berry", [(100, 0, 150), (200, 50, 150), (255, 100, 150)]),
   ("tiktok_fire", [(150, 0, 0), (255, 100, 0), (255, 200, 0)]),
   ("tiktok_neon", [(20, 0, 40), (60, 0, 120), (0, 255, 200)])]

/-- Python `s.startswith(pre)`. -/
def pyStartsWith (pre s : String) : Bool :=
  s.data.take pre.data.length == pre.data

/-- `COLOR_PALETTES[name]` via the registry. -/
def lookupPalette (name : String) : Option (List RGB) :=
  (COLOR_PALETTES.find? (fun p => p.1 == name)).map (·.2)

/-- `[k for k in COLOR_PALETTES.keys() if k.startswith("tiktok_")]`. -/
def tiktok_palette_names : List String :=
  (COLOR_PALETTES.filter (fun p => pyStartsWith "tiktok_" p.1)).map (·.1)

/-- `random.choice(tiktok_palettes)`: the RNG draw is passed in as an
index. -/
def tiktokChoice (rngChoice : ℕ) : String :=
  tiktok_palette_names.getD (rngChoice % tiktok_palette_names.length) ""

/-- `gradientColor` with the (never hit, for a non-empty palette)
failure case defaulted: the per-row color as a total function. -/
def gradientColorD (colors : List RGB) (t : ℚ) : RGB :=
  (gradientColor colors t).getD (0, 0, 0)

/-- The two direction modes whose interpolation parameter is exactly
representable (diagonal/radial/spiral interpolate along irrational
Euclidean distances and are not exercised by the claims). -/
inductive Direction where
  | vertical
  | horizontal
  deriving DecidableEq

/-- `create_gradient_background` (background_generator.py, lines
56–106) in the configuration the claims exercise (`noise=False`,
`animated=False`; the noise branch draws from the numpy RNG and the
animated branch is off): when `palette_name` is `None` or not a
registry key, a TikTok palette is drawn from the RNG; then the
gradient for the requested direction is produced. -/
def create_gradient_background (width height : ℕ)
    (palette_name : Option String) (direction : Direction)
    (rngChoice : ℕ) : Option (List (List RGB)) :=
  let name := match palette_name with
    | none => tiktokChoice rngChoice
    | some n => if (lookupPalette n).isSome then n else tiktokChoice rngChoice
  let colors := (lookupPalette name).getD []
  match direction with
  | .vertical => _vertical_gradient width height colors
  | .horizontal => _horizontal_gradient width height colors

/-! ### Markdown header parsing (`parse_md_file`, identical in
`generate_videos.py` lines 91–165 and `utils.py` lines 58–131).

The embedding takes the file's lines (after the `rstrip("\n\r")` of
the read loop) and the file's base name without extension
(`os.path.splitext(os.path.basename(path))[0]` / `Path(path).stem`). -/

/-- `key.strip().lower() in ("titulo", "título", "title")`. -/
def isTitleKey (k : String) : Bool :=
  pyLower (pyStrip k) == "titulo" || pyLower (pyStrip k) == "título"
    || pyLower (pyStrip k) == "title"

/-- `key.strip().lower() in ("autor", "author")`. -/
def isAuthorKey (k : String) : Bool :=
  pyLower (pyStrip k) == "autor" || pyLower (pyStrip k) == "author"

/-- Whether a raw file line is recognizable as a title header: both
recognition sites of `parse_md_file` operate on the stripped line
(`":" in line` then the keyword test on the part before the colon). -/
def isTitleHeaderLine (ln : String) : Bool :=
  hasColon (pyStrip ln) && isTitleKey (splitColon1 (pyStrip ln)).1

/-- Whether a raw file line is recognizable as an author header. -/
def isAuthorHeaderLine (ln : String) : Bool :=
  hasColon (pyStrip ln) && isAuthorKey (splitColon1 (pyStrip ln)).1

/-- `stripped = [ln.strip() for ln in lines]`. -/
def strippedOf (lines : List String) : List String :=
  lines.map pyStrip

/-- `non_empty = [ln for ln in stripped if ln != ""]`. -/
def nonEmptyOf (lines : List String) : List String :=
  (strippedOf lines).filter (· ≠ "")

/-- Header phase 1a: title from `non_empty[0]`, when present and
carrying a title keyword before a colon. -/
def phase1Title (non_empty : List String) : Option String :=
  match non_empty.head? with
  | some first =>
    if hasColon first ∧ isTitleKey (splitColon1 first).1
    then some (pyStrip (splitColon1 first).2) else none
  | none => none

/-- Header phase 1b: author from `non_empty[1]`, when present and
carrying an author keyword before a colon. -/
def phase1Author (non_empty : List String) : Option String :=
  match non_empty[1]? with
  | some second =>
    if hasColon second ∧ isAuthorKey (splitColon1 second).1
    then some (pyStrip (splitColon1 second).2) else none
  | none => none

/-- The fallback loop over `stripped[:4]`: fill in whichever of
title/author is still missing from any early `key: value` line. -/
def scanFallback : List String → Option String → Option String →
    Option String × Option String
  | [], t, a => (t, a)
  | ln :: rest, t, a =>
    if ln ≠ "" ∧ hasColon ln then
      scanFallback rest
        (if t = none ∧ isTitleKey (splitColon1 ln).1
         then some (pyStrip (splitColon1 ln).2) else t)
        (if a = none ∧ isAuthorKey (splitColon1 ln).1
         then some (pyStrip (splitColon1 ln).2) else a)
    else scanFallback rest t a

/-- Both header phases combined, as `parse_md_file` runs them. -/
def parse_md_headers (lines : List String) : Option String × Option String :=
  let t1 := phase1Title (nonEmptyOf lines)
  let a1 := phase1Author (nonEmptyOf lines)
  if t1 = none ∨ a1 = none then scanFallback ((strippedOf lines).take 4) t1 a1
  else (t1, a1)

/-- The first content-start scan of `parse_md_file`: count up to two
`key: value`-looking lines (skipping blanks), remembering the index
just past them; break at the first non-blank non-header line after two
headers.  Returns `(header_count, start_idx)`. -/
def scanHeaders : List String → ℕ → ℕ → ℕ → ℕ × ℕ
  | [], _, hc, si => (hc, si)
  | ln :: rest, i, hc, si =>
    if pyStrip ln = "" then scanHeaders rest (i + 1) hc si
    else if hasColon ln ∧ hc < 2 then scanHeaders rest (i + 1) (hc + 1) (i + 1)
    else if 2 ≤ hc then (hc, i)
    else scanHeaders rest (i + 1) hc si

/-- The second content-start scan, used when fewer than two headers
were counted: the index just past the second non-empty line. -/
def secondNonEmpty : List String → ℕ → ℕ → ℕ → ℕ
  | [], _, _, si => si
  | ln :: rest, i, count, si =>
    if pyStrip ln ≠ "" then
      if 2 ≤ count + 1 then i + 1
      else secondNonEmpty rest (i + 1) (count + 1) si
    else secondNonEmpty rest (i + 1) count si

/-- The poem content extracted by `parse_md_file`: drop the header
region, drop leading blank lines, join and strip. -/
def parse_md_content (lines : List String) : String :=
  let (hc, si1) := scanHeaders lines 0 0 0
  let start_idx := if hc < 2 then secondNonEmpty lines 0 0 si1 else si1
  pyStrip (String.intercalate "\n"
    ((lines.drop start_idx).dropWhile (fun ln => pyStrip ln = "")))

/-- `parse_md_file`: returns `(title, author, content)`, with
`if not title: title = stem` and `if not author: author = ""` at the
end. -/
def parse_md_file (lines : List String) (stem : String) :
    String × String × String :=
  let (t, a) := parse_md_headers lines
  ((match t with
    | none => stem
    | some s => if s = "" then stem else s),
   (match a with
    | none => ""
    | some s => s),
   parse_md_content lines)

/-- The contiguity invariant of the spec: each segment starts exactly
where the previous one ends. -/
def Contiguous (l : List Subtitle) : Prop :=
  ∀ i (h : i + 1 < l.length),
    (l.get ⟨i + 1, h⟩).start
      = (l.get ⟨i, Nat.lt_of_succ_lt h⟩).start
        + (l.get ⟨i, Nat.lt_of_succ_lt h⟩).duration

end PoetryReader

namespace PoetryReader

/-! ### Lemmas about the segmenter -/

theorem silenceDur_eq : silenceDur = 1/2 := by
  norm_num [silenceDur, write_silence_frames, pyInt,
    show (Int.toNat 11025) = 11025 from rfl]

theorem silenceDur_pos : 0 < silenceDur := by
  rw [silenceDur_eq]; norm_num

theorem processSegments_head_start (env : ℕ → Option ℚ) :
    ∀ (segs : List (ℕ × String)) (s : ℚ) (x : Subtitle),
      (processSegments env segs s).head? = some x → x.start = s := by
  intro segs
  induction segs with
  | nil => intro s x hx; simp [processSegments] at hx
  | cons p rest ih =>
    intro s x hx
    obtain ⟨j, line⟩ := p
    rw [processSegments] at hx
    by_cases hb : isBlank line
    · simp only [hb, if_true, List.head?_cons, Option.some.injEq] at hx
      rw [← hx]
    · simp only [hb, if_false, Bool.false_eq_true] at hx
      cases he : env j with
      | none => rw [he] at hx; exact ih s x hx
      | some d =>
        rw [he] at hx
        simp only [List.head?_cons, Option.some.injEq] at hx
        rw [← hx]

theorem head?_get_zero (l : List Subtitle) (h : 0 < l.length) :
    l.head? = some (l.get ⟨0, h⟩) := by
  cases l with
  | nil => simp at h
  | cons a t => rfl

theorem contiguous_nil : Contiguous [] := by
  intro i h; simp at h

theorem contiguous_cons (a : Subtitle) (t : List Subtitle)
    (hh : ∀ x, t.head? = some x → x.start = a.start + a.duration)
    (ht : Contiguous t) : Contiguous (a :: t) := by
  intro i h
  cases i with
  | zero =>
    cases t with
    | nil => simp at h
    | cons b t' =>
      have := hh b rfl
      simpa using this
  | succ k =>
    have h' : k + 1 < t.length := by simpa using h
    exact ht k h'

theorem processSegments_contiguous (env : ℕ → Option ℚ) :
    ∀ (segs : List (ℕ × String)) (s : ℚ),
      Contiguous (processSegments env segs s) := by
  intro segs
  induction segs with
  | nil => intro s; rw [processSegments]; exact contiguous_nil
  | cons p rest ih =>
    intro s
    obtain ⟨j, line⟩ := p
    rw [processSegments]
    by_cases hb : isBlank line
    · simp only [hb, if_true]
      refine contiguous_cons _ _ (fun x hx => ?_) (ih _)
      simpa using processSegments_head_start env rest _ x hx
    · simp only [hb, if_false, Bool.false_eq_true]
      cases he : env j with
      | none => exact ih s
      | some d =>
        refine contiguous_cons _ _ (fun x hx => ?_) (ih _)
        simpa using processSegments_head_start env rest _ x hx

theorem processSegments_duration_nonneg (env : ℕ → Option ℚ)
    (henv : ∀ j d, env j = some d → 0 ≤ d) :
    ∀ (segs : List (ℕ × String)) (s : ℚ) (x : Subtitle),
      x ∈ processSegments env segs s → 0 ≤ x.duration := by
  intro segs
  induction segs with
  | nil => intro s x hx; simp [processSegments] at hx
  | cons p rest ih =>
    intro s x hx
    obtain ⟨j, line⟩ := p
    rw [processSegments] at hx
    by_cases hb : isBlank line
    · simp only [hb, if_true, List.mem_cons] at hx
      rcases hx with hx | hx
      · rw [hx]; exact le_of_lt silenceDur_pos
      · exact ih _ x hx
    · simp only [hb, if_false, Bool.false_eq_true] at hx
      cases he : env j with
      | none => rw [he] at hx; exact ih _ x hx
      | some d =>
        rw [he] at hx
        simp only [List.mem_cons] at hx
        rcases hx with hx | hx
        · rw [hx]; exact henv j d he
        · exact ih _ x hx

theorem contiguous_start_mono (l : List Subtitle)
    (hc : Contiguous l) (hd : ∀ x ∈ l, 0 ≤ x.duration) :
    ∀ (i k : ℕ) (hk : i + k < l.length),
      (l.get ⟨i, by omega⟩).start ≤ (l.get ⟨i + k, hk⟩).start := by
  intro i k
  induction k with
  | zero => intro hk; exact le_refl _
  | succ m ih =>
    intro hk
    have hm : i + m + 1 < l.length := by omega
    have step := hc (i + m) hm
    have hdur : 0 ≤ (l.get ⟨i + m, Nat.lt_of_succ_lt hm⟩).duration :=
      hd _ (l.get_mem _ _)
    have : (l.get ⟨i + m, Nat.lt_of_succ_lt hm⟩).start
        ≤ (l.get ⟨i + m + 1, hm⟩).start := by
      rw [step]; linarith
    have h1 := ih (by omega)
    calc (l.get ⟨i, by omega⟩).start
        ≤ (l.get ⟨i + m, by omega⟩).start := h1
      _ ≤ (l.get ⟨i + m + 1, hm⟩).start := this
      _ = (l.get ⟨i + (m + 1), by omega⟩).start := rfl

theorem processSegments_map_text (env : ℕ → Option ℚ) :
    ∀ (segs : List (ℕ × String)) (s : ℚ),
      (processSegments env segs s).map (·.text) = keptTexts env segs := by
  intro segs
  induction segs with
  | nil => intro s; rw [processSegments]; rfl
  | cons p rest ih =>
    intro s
    obtain ⟨j, line⟩ := p
    rw [processSegments, keptTexts]
    by_cases hb : isBlank line
    · simp only [hb, if_true, List.filterMap_cons, List.map_cons]
      rw [← keptTexts, ih]
    · simp only [hb, if_false, Bool.false_eq_true, List.filterMap_cons]
      cases he : env j with
      | none => simpa [he] using ih s
      | some d =>
        simp only [he, List.map_cons]
        rw [← keptTexts, ih]

/-! ### Claim C1 -/

/-- C1: for every poem body and fragment oracle, the timeline built by
the segmenter loop in `main` is contiguous — the first segment starts
at 0, each segment starts where the previous one ends, and (durations
being non-negative) the starts are non-decreasing. -/
theorem timeline_contiguous (env : ℕ → Option ℚ) (text : String)
    (henv : ∀ j d, env j = some d → 0 ≤ d) :
    (∀ h : 0 < (buildTimeline env text).length,
        ((buildTimeline env text).get ⟨0, h⟩).start = 0)
    ∧ Contiguous (buildTimeline env text)
    ∧ (∀ (i j : ℕ) (hj : j < (buildTimeline env text).length) (hij : i ≤ j),
        ((buildTimeline env text).get ⟨i, lt_of_le_of_lt hij hj⟩).start
          ≤ ((buildTimeline env text).get ⟨j, hj⟩).start) := by
  have hb : buildTimeline env text
      = processSegments env (split_text_into_lines text).enum 0 := rfl
  refine ⟨?_, ?_, ?_⟩
  · intro h
    have hh := head?_get_zero (buildTimeline env text) h
    exact processSegments_head_start env _ 0 _ hh
  · rw [hb]; exact processSegments_contiguous env _ 0
  · intro i j hj hij
    obtain ⟨k, rfl⟩ := Nat.exists_eq_add_of_le hij
    have hc : Contiguous (buildTimeline env text) := by
      rw [hb]; exact processSegments_contiguous env _ 0
    have hd : ∀ x ∈ buildTimeline env text, 0 ≤ x.duration := by
      rw [hb]; exact fun x hx => processSegments_duration_nonneg env henv _ 0 x hx
    exact contiguous_start_mono _ hc hd i k hj

/-- Witness for C1 at a concrete input: all hypotheses hold and the
conclusion is obtained by applying the theorem. -/
theorem timeline_contiguous_witness :
    (∀ j d, (fun _ : ℕ => some (2 : ℚ)) j = some d → 0 ≤ d)
    ∧ Contiguous (buildTimeline (fun _ : ℕ => some (2 : ℚ)) "a\n\nb") := by
  have henv : ∀ j d, (fun _ : ℕ => some (2 : ℚ)) j = some d → 0 ≤ d := by
    intro j d hd
    injection hd with h
    rw [← h]; norm_num
  exact ⟨henv, (timeline_contiguous (fun _ : ℕ => some (2 : ℚ)) "a\n\nb" henv).2.1⟩

/-! ### Claim C2 -/

/-- C2 counterexample: when the fragment file of the non-blank line
"Line B" (line index 1) is missing, `main` does not abort the poem —
the loop produces a timeline, and that timeline omits "Line B". -/
theorem missing_frag_no_abort_counterexample :
    buildTimeline (fun j => if j = 0 then some 2 else none) "Line A\nLine B"
      = [⟨"Line A", 0, 2⟩]
    ∧ ∀ s ∈ buildTimeline (fun j => if j = 0 then some 2 else none) "Line A\nLine B",
        s.text ≠ "Line B" := by
  have h1 : buildTimeline (fun j => if j = 0 then some 2 else none) "Line A\nLine B"
      = [⟨"Line A", 0, 2⟩] := rfl
  refine ⟨h1, ?_⟩
  intro s hs
  rw [h1] at hs
  simp only [List.mem_singleton] at hs
  rw [hs]
  decide

/-- C2 amended: a missing per-line fragment does not abort the poem's
processing; the loop skips that line (logging an error) and the
produced timeline consists, in order, of exactly the blank lines (as
pauses) and the non-blank lines whose fragment file exists — the
missing line is simply omitted. -/
theorem missing_frag_skipped (env : ℕ → Option ℚ) (text : String) :
    (buildTimeline env text).map (·.text)
      = keptTexts env (split_text_into_lines text).enum :=
  processSegments_map_text env _ 0

/-! ### Claim C3 -/

/-- C3: for the body `"Line A\n\nLine B"` (with both fragment files
present, of durations `dA` and `dB`), the timeline has exactly three
segments in order — "Line A", then an empty-text pause of duration
1/2 > 0, then "Line B" — so the blank line is preserved as a pause. -/
theorem blank_line_pause (dA dB : ℚ) :
    buildTimeline (fun j => if j = 0 then some dA else if j = 2 then some dB else none)
        "Line A\n\nLine B"
      = [⟨"Line A", 0, dA⟩, ⟨"", dA, 1/2⟩, ⟨"Line B", dA + 1/2, dB⟩]
    ∧ (0 : ℚ) < 1/2 := by
  constructor
  · show processSegments _ (split_text_into_lines "Line A\n\nLine B").enum 0 = _
    have henum : (split_text_into_lines "Line A\n\nLine B").enum
        = [(0, "Line A"), (1, ""), (2, "Line B")] := by decide
    rw [henum]
    simp only [processSegments,
      show isBlank "Line A" = false from by decide,
      show isBlank "" = true from by decide,
      show isBlank "Line B" = false from by decide,
      if_true, if_false, silenceDur_eq]
    norm_num
  · norm_num

/-! ### Claim C4 -/

theorem fadeOpacity_le_one (f d : ℚ) (hf : 0 < f) :
    ∀ t, fadeOpacity f d t ≤ 1 := by
  intro t
  rw [fadeOpacity]
  by_cases h1 : t < f
  · rw [if_pos h1]
    calc t / f ≤ f / f := by gcongr
      _ = 1 := div_self (ne_of_gt hf)
  · rw [if_neg h1]
    by_cases h2 : t > d - f
    · rw [if_pos h2]
      have hlt : d - t < f := by linarith
      calc (d - t) / f ≤ f / f := by gcongr
        _ = 1 := div_self (ne_of_gt hf)
    · rw [if_neg h2]

/-- C4: for a segment of duration `d > 0` and positive fade parameter,
the fade window is `f = min(fade_duration, d/4)` and the per-frame
opacity is 0 at `t = 0`, 1 at `t = f`, 1 at `t = d - f`, 0 at `t = d`,
non-decreasing on `[0, f]` and non-increasing on `[d - f, d]`. -/
theorem fade_envelope (fade_duration d : ℚ)
    (hfd : 0 < fade_duration) (hd : 0 < d) :
    fadeOpacity (fade_dur_actual fade_duration d) d 0 = 0
    ∧ fadeOpacity (fade_dur_actual fade_duration d) d
        (fade_dur_actual fade_duration d) = 1
    ∧ fadeOpacity (fade_dur_actual fade_duration d) d
        (d - fade_dur_actual fade_duration d) = 1
    ∧ fadeOpacity (fade_dur_actual fade_duration d) d d = 0
    ∧ (∀ t₁ t₂, 0 ≤ t₁ → t₁ ≤ t₂ → t₂ ≤ fade_dur_actual fade_duration d →
        fadeOpacity (fade_dur_actual fade_duration d) d t₁
          ≤ fadeOpacity (fade_dur_actual fade_duration d) d t₂)
    ∧ (∀ t₁ t₂, d - fade_dur_actual fade_duration d ≤ t₁ → t₁ ≤ t₂ → t₂ ≤ d →
        fadeOpacity (fade_dur_actual fade_duration d) d t₂
          ≤ fadeOpacity (fade_dur_actual fade_duration d) d t₁) := by
  set f := fade_dur_actual fade_duration d with hfdef
  have hf : 0 < f := lt_min hfd (by linarith)
  have hq : f ≤ d / 4 := min_le_right _ _
  have h2f : 2 * f < d := by linarith
  have hval_f : fadeOpacity f d f = 1 := by
    rw [fadeOpacity, if_neg (lt_irrefl f), if_neg (by intro h; linarith)]
  have hval_df : fadeOpacity f d (d - f) = 1 := by
    rw [fadeOpacity, if_neg (by intro h; linarith), if_neg (lt_irrefl (d - f))]
  refine ⟨?_, hval_f, hval_df, ?_, ?_, ?_⟩
  · rw [fadeOpacity, if_pos hf]
    exact zero_div f
  · rw [fadeOpacity, if_neg (by intro h; linarith), if_pos (by linarith)]
    simp
  · intro t₁ t₂ h0 h12 h2f'
    by_cases hc : t₂ < f
    · rw [fadeOpacity, if_pos (lt_of_le_of_lt h12 hc), fadeOpacity, if_pos hc]
      gcongr
    · have ht2 : t₂ = f := le_antisymm h2f' (not_lt.mp hc)
      rw [ht2, hval_f]
      exact fadeOpacity_le_one f d hf t₁
  · intro t₁ t₂ h1 h12 h2d
    by_cases hc : t₁ > d - f
    · have ht1 : ¬ t₁ < f := by intro h; linarith
      have ht2 : ¬ t₂ < f := by intro h; linarith
      rw [fadeOpacity, if_neg ht2, if_pos (by linarith), fadeOpacity, if_neg ht1, if_pos hc]
      gcongr
    · have ht1 : t₁ = d - f := le_antisymm (not_lt.mp hc) h1
      rw [ht1, hval_df]
      exact fadeOpacity_le_one f d hf t₂

/-- Witness for C4 at `fade_duration = 1/2`, `d = 2` (so `f = 1/2`). -/
theorem fade_envelope_witness :
    fadeOpacity (fade_dur_actual (1/2) 2) 2 0 = 0
    ∧ fadeOpacity (fade_dur_actual (1/2) 2) 2 2 = 0 :=
  ⟨(fade_envelope (1/2) 2 (by norm_num) (by norm_num)).1,
   (fade_envelope (1/2) 2 (by norm_num) (by norm_num)).2.2.2.1⟩

/-! ### Claim C9 -/

/-- C9: an entry with empty text or non-positive duration gets no text
layer from `create_video_with_subtitles`, while every entry with
non-empty text and positive duration does get one. -/
theorem pause_segments_no_layer (subtitles : List Subtitle) (s : Subtitle)
    (hs : s ∈ subtitles) :
    ((s.text = "" ∨ s.duration ≤ 0) → s ∉ textLayers subtitles)
    ∧ (s.text ≠ "" ∧ 0 < s.duration → s ∈ textLayers subtitles) := by
  constructor
  · intro h hmem
    rw [textLayers, List.mem_filter] at hmem
    have := hmem.2
    simp only [Bool.not_eq_true', Bool.or_eq_false_iff, beq_eq_false_iff_ne,
      decide_eq_false_iff_not, not_le] at this
    rcases h with h | h
    · exact this.1 h
    · linarith [this.2]
  · intro h
    rw [textLayers, List.mem_filter]
    refine ⟨hs, ?_⟩
    simp only [Bool.not_eq_true', Bool.or_eq_false_iff, beq_eq_false_iff_ne,
      decide_eq_false_iff_not, not_le]
    exact ⟨h.1, h.2⟩

/-! ### Claim C5 -/

/-- C5 counterexample: with the code's own fallback measurement
`len(s) * 10`, `max_width = 50` and `max_lines = 2`, the input
`"aa bb cc dd ee ff gg hh"` wraps greedily to 4 lines, yet `_wrap_text`
returns 3 lines, not 2: the collapsed overflow line is too wide, so the
`textwrap.wrap` fallback runs and ignores the line cap. -/
theorem wrap_cap_counterexample :
    (greedyLines (fun s => 10 * s.length) 50
        (pyWords "aa bb cc dd ee ff gg hh") []).length = 4
    ∧ (_wrap_text (fun s => 10 * s.length) "aa bb cc dd ee ff gg hh" 50
        (some 2)).length = 3 := by
  constructor
  · decide
  · decide

/-- C5 amended: when the greedy wrap exceeds `max_lines = m ≥ 1` AND
the collapsed overflow line measures within `max_width`, the output has
exactly `m` lines and its last line is the space-join of all overflow
content; when the collapsed line is still too wide the code instead
falls back to a character-count wrap that need not respect the cap. -/
theorem wrap_cap (measure : String → ℕ) (text : String) (max_width m : ℕ)
    (hm : 1 ≤ m)
    (hlong : m < (greedyLines measure max_width (pyWords text) []).length)
    (hfit : measure (pyJoin ((greedyLines measure max_width (pyWords text) []).drop (m - 1)))
        ≤ max_width) :
    (_wrap_text measure text max_width (some m)).length = m
    ∧ (_wrap_text measure text max_width (some m)).getLast?
        = some (pyJoin ((greedyLines measure max_width (pyWords text) []).drop (m - 1))) := by
  have hne : (pyWords text).isEmpty = false := by
    cases hw : pyWords text with
    | nil => rw [hw] at hlong; simp [greedyLines] at hlong
    | cons a l => rfl
  have hm0 : m ≠ 0 := by omega
  have hnofall : ¬ (max_width
      < measure (pyJoin ((greedyLines measure max_width (pyWords text) []).drop (m - 1)))) :=
    not_lt.mpr hfit
  have hrw : _wrap_text measure text max_width (some m)
      = (greedyLines measure max_width (pyWords text) []).take (m - 1)
        ++ [pyJoin ((greedyLines measure max_width (pyWords text) []).drop (m - 1))] := by
    rw [_wrap_text]
    simp only [hne, Bool.false_eq_true, if_false, hm0, hlong, hnofall, ne_eq,
      not_false_iff, and_true, true_and, if_true, if_pos, not_false_eq_true]
  refine ⟨?_, ?_⟩
  · rw [hrw]
    simp only [List.length_append, List.length_take, List.length_singleton]
    omega
  · rw [hrw]
    exact List.getLast?_concat _

/-- Witness for C5 (amended): a measurement oracle under which the
collapsed overflow line fits, so the cap is honored. -/
theorem wrap_cap_witness :
    1 < (greedyLines (fun s => if s = "a b c d" then 0 else s.length) 3
        (pyWords "a b c d") []).length
    ∧ (_wrap_text (fun s => if s = "a b c d" then 0 else s.length) "a b c d" 3
        (some 1)).length = 1 :=
  ⟨by decide,
   (wrap_cap (fun s => if s = "a b c d" then 0 else s.length) "a b c d" 3 1
      (le_refl 1) (by decide) (by decide)).1⟩

/-! ### Lemmas about the gradient generator -/

theorem pyInt_natCast (n : ℕ) : pyInt (n : ℚ) = n := by
  rw [pyInt, if_neg (not_lt.mpr (Nat.cast_nonneg n))]
  exact Int.floor_natCast n

theorem pyInt_zero : pyInt 0 = 0 := by
  simpa using pyInt_natCast 0

theorem pixelOf_lerp_zero (c1 c2 : RGB) : pixelOf (lerpColor c1 c2 0) = c1 := by
  obtain ⟨r, g, b⟩ := c1
  simp [pixelOf, lerpColor, pyInt_natCast]

theorem gradientColor_zero (colors : List RGB) :
    gradientColor colors 0 = colors.head? := by
  rw [gradientColor]
  simp only [pyInt_zero, Int.toNat_zero]
  by_cases h : colors.length - 1 ≤ 0
  · rw [if_pos h]
    rcases colors with _ | ⟨c1, _ | ⟨c2, cs⟩⟩
    · rfl
    · rfl
    · simp at h
  · rw [if_neg h]
    rcases colors with _ | ⟨c1, _ | ⟨c2, cs⟩⟩
    · simp at h
    · simp at h
    · simp only [List.getElem?_cons_zero, List.getElem?_cons_succ,
        List.head?_cons, Option.some.injEq]
      have : (0 : ℚ) - ((0 : ℤ) : ℚ) = 0 := by norm_num
      rw [this, pixelOf_lerp_zero]

theorem gradientColor_last (colors : List RGB) :
    gradientColor colors ((colors.length : ℚ) - 1) = colors.getLast? := by
  rcases colors with _ | ⟨c, cs⟩
  · rw [gradientColor]
    have hm1 : ((-1 : ℤ) : ℚ) = -1 := by norm_num
    have h1 : pyInt ((([] : List RGB).length : ℚ) - 1) = -1 := by
      rw [pyInt, if_pos (by norm_num)]
      rw [show ((([] : List RGB).length : ℚ) - 1) = ((-1 : ℤ) : ℚ) by norm_num]
      exact Int.ceil_intCast (-1)
    rw [h1]
    rfl
  · rw [gradientColor]
    have hcast : (((c :: cs).length : ℚ) - 1) = (((c :: cs).length - 1 : ℕ) : ℚ) := by
      push_cast [Nat.cast_sub (by simp : 1 ≤ (c :: cs).length)]
      ring
    rw [hcast, pyInt_natCast]
    rw [if_pos (by simp)]

theorem gradientColor_single (c : RGB) (t : ℚ) :
    gradientColor [c] t = some c := by
  rw [gradientColor]
  simp

theorem gradientColor_isSome (colors : List RGB) (hne : colors ≠ []) (t : ℚ) :
    ∃ c, gradientColor colors t = some c := by
  rw [gradientColor]
  by_cases h : colors.length - 1 ≤ (pyInt t).toNat
  · rw [if_pos h]
    rcases colors with _ | ⟨c, cs⟩
    · exact absurd rfl hne
    · rw [List.getLast?_eq_getLast (c :: cs) (by simp)]
      exact ⟨_, rfl⟩
  · rw [if_neg h]
    have h1 : (pyInt t).toNat < colors.length := by omega
    have h2 : (pyInt t).toNat + 1 < colors.length := by omega
    rw [List.getElem?_eq_getElem h1, List.getElem?_eq_getElem h2]
    exact ⟨_, rfl⟩

theorem gradientColorD_eq (colors : List RGB) (hne : colors ≠ []) (t : ℚ) :
    gradientColor colors t = some (gradientColorD colors t) := by
  obtain ⟨c, hc⟩ := gradientColor_isSome colors hne t
  rw [gradientColorD, hc]
  rfl

theorem gradientRows_eq_map (w : ℕ) (colors : List RGB) (toT : ℕ → ℚ)
    (g : ℕ → RGB) :
    ∀ l : List ℕ, (∀ y ∈ l, gradientColor colors (toT y) = some (g y)) →
      gradientRows w colors toT l
        = some (l.map (fun y => List.replicate w (g y))) := by
  intro l
  induction l with
  | nil => intro _; rfl
  | cons y ys ih =>
    intro h
    rw [gradientRows, h y (List.mem_cons_self y ys),
      ih (fun z hz => h z (List.mem_cons_of_mem _ hz))]
    rfl

theorem gradientCols_eq_map (colors : List RGB) (toT : ℕ → ℚ) (g : ℕ → RGB) :
    ∀ l : List ℕ, (∀ x ∈ l, gradientColor colors (toT x) = some (g x)) →
      gradientCols colors toT l = some (l.map g) := by
  intro l
  induction l with
  | nil => intro _; rfl
  | cons x xs ih =>
    intro h
    rw [gradientCols, h x (List.mem_cons_self x xs),
      ih (fun z hz => h z (List.mem_cons_of_mem _ hz))]
    rfl

theorem vertical_gradient_eval (w hgt : ℕ) (colors : List RGB)
    (hh : 2 ≤ hgt) (hne : colors ≠ []) :
    _vertical_gradient w hgt colors
      = some ((List.range hgt).map (fun y : ℕ =>
          List.replicate w (gradientColorD colors
            ((y : ℚ) / ((hgt : ℚ) - 1) * ((colors.length : ℚ) - 1))))) := by
  rw [_vertical_gradient, if_neg (by omega), if_neg (by omega)]
  exact gradientRows_eq_map w colors _ _ _
    (fun y _ => gradientColorD_eq colors hne _)

theorem horizontal_gradient_eval (w hgt : ℕ) (colors : List RGB)
    (hw : 2 ≤ w) (hne : colors ≠ []) :
    _horizontal_gradient w hgt colors
      = some (List.replicate hgt ((List.range w).map (fun x : ℕ =>
          gradientColorD colors
            ((x : ℚ) / ((w : ℚ) - 1) * ((colors.length : ℚ) - 1))))) := by
  rw [_horizontal_gradient, if_neg (by omega), if_neg (by omega)]
  rw [gradientCols_eq_map colors _ _ _ (fun x _ => gradientColorD_eq colors hne _)]
  rfl

theorem gradientColorD_zero (colors : List RGB) (hne : colors ≠ []) :
    gradientColorD colors 0 = colors.head hne := by
  rw [gradientColorD, gradientColor_zero, List.head?_eq_head hne]
  rfl

theorem gradientColorD_last (colors : List RGB) (hne : colors ≠ []) :
    gradientColorD colors ((colors.length : ℚ) - 1) = colors.getLast hne := by
  rw [gradientColorD, gradientColor_last, List.getLast?_eq_getLast colors hne]
  rfl

theorem vertical_two_rows (w : ℕ) (colors : List RGB) (hne : colors ≠ []) :
    _vertical_gradient w 2 colors
      = some [List.replicate w (colors.head hne),
              List.replicate w (colors.getLast hne)] := by
  rw [vertical_gradient_eval w 2 colors (by norm_num) hne]
  have hr : List.range 2 = [0, 1] := rfl
  rw [hr]
  simp only [List.map_cons, List.map_nil, Option.some.injEq]
  rw [show (((0 : ℕ) : ℚ) / (((2 : ℕ) : ℚ) - 1) * ((colors.length : ℚ) - 1)) = 0
      by norm_num]
  rw [show (((1 : ℕ) : ℚ) / (((2 : ℕ) : ℚ) - 1) * ((colors.length : ℚ) - 1))
      = (colors.length : ℚ) - 1 by norm_num]
  rw [gradientColorD_zero colors hne, gradientColorD_last colors hne]

/-! ### Claim C6 -/

/-- C6 counterexample: at the degenerate single-pixel height (resp.
width), the gradient computation divides by zero (`y / (height - 1)`
with `height = 1`); the denominator is not guarded to be at least 1. -/
theorem gradient_div_zero_counterexample :
    _vertical_gradient 1 1 [(255, 94, 77), (255, 184, 140), (253, 216, 193)] = none
    ∧ _horizontal_gradient 1 1 [(255, 94, 77), (255, 184, 140), (253, 216, 193)] = none :=
  ⟨rfl, rfl⟩

/-- C6 amended: gradient generation returns a pixel buffer without
division by zero only for spans of at least 2 along the gradient axis
(vertical: `height ≥ 2`; horizontal: `width ≥ 2`) and a non-empty
palette; at a span of exactly 1 the unguarded `span - 1` denominator
raises `ZeroDivisionError`. -/
theorem gradient_no_div_zero :
    (∀ (w hgt : ℕ) (colors : List RGB), 2 ≤ hgt → colors ≠ [] →
        (_vertical_gradient w hgt colors).isSome = true)
    ∧ (∀ (w hgt : ℕ) (colors : List RGB), 2 ≤ w → colors ≠ [] →
        (_horizontal_gradient w hgt colors).isSome = true) := by
  constructor
  · intro w hgt colors hh hne
    rw [vertical_gradient_eval w hgt colors hh hne]
    rfl
  · intro w hgt colors hw hne
    rw [horizontal_gradient_eval w hgt colors hw hne]
    rfl

/-- Witness for C6 (amended) on the `sunset` palette. -/
theorem gradient_no_div_zero_witness :
    (_vertical_gradient 1 2 [(255, 94, 77), (255, 184, 140), (253, 216, 193)]).isSome = true
    ∧ (_horizontal_gradient 2 1 [(255, 94, 77), (255, 184, 140), (253, 216, 193)]).isSome = true :=
  ⟨gradient_no_div_zero.1 1 2 _ (by norm_num) (by decide),
   gradient_no_div_zero.2 2 1 _ (by norm_num) (by decide)⟩

/-! ### Claim C7 -/

/-- C7: for a non-empty palette and `height ≥ 2`, the vertical gradient
succeeds, row 0 is entirely `P[0]`, the last row is entirely `P[-1]`,
and a length-1 palette gives a solid fill of that color everywhere. -/
theorem vertical_gradient_endpoints (w hgt : ℕ) (colors : List RGB)
    (hh : 2 ≤ hgt) (hne : colors ≠ []) :
    ∃ img, _vertical_gradient w hgt colors = some img
      ∧ img.length = hgt
      ∧ img.head? = some (List.replicate w (colors.head hne))
      ∧ img.getLast? = some (List.replicate w (colors.getLast hne))
      ∧ (colors.length = 1 →
          img = List.replicate hgt (List.replicate w (colors.head hne))) := by
  refine ⟨_, vertical_gradient_eval w hgt colors hh hne, ?_, ?_, ?_, ?_⟩
  · simp
  · obtain ⟨k, rfl⟩ : ∃ k, hgt = k + 1 := ⟨hgt - 1, by omega⟩
    rw [List.range_succ_eq_map]
    simp only [List.map_cons, List.head?_cons, Option.some.injEq]
    rw [show (((0 : ℕ) : ℚ) / (((k + 1 : ℕ) : ℚ) - 1) * ((colors.length : ℚ) - 1)) = 0
        by norm_num]
    rw [gradientColorD_zero colors hne]
  · obtain ⟨k, rfl⟩ : ∃ k, hgt = k + 1 := ⟨hgt - 1, by omega⟩
    rw [List.range_succ, List.map_append]
    simp only [List.map_cons, List.map_nil]
    rw [List.getLast?_concat]
    have hk0 : ((k : ℚ)) ≠ 0 := by
      have : 0 < k := by omega
      exact_mod_cast Nat.pos_iff_ne_zero.mp this
    rw [show (((k : ℕ) : ℚ) / (((k + 1 : ℕ) : ℚ) - 1) * ((colors.length : ℚ) - 1))
        = (colors.length : ℚ) - 1 by
      push_cast
      rw [add_sub_cancel_right, div_self hk0, one_mul]]
    rw [gradientColorD_last colors hne]
  · intro h1
    obtain ⟨c, hc⟩ := List.length_eq_one.mp h1
    subst hc
    have hall : ∀ t : ℚ, gradientColorD [c] t = c := fun t => by
      rw [gradientColorD, gradientColor_single]
      rfl
    simp only [hall, List.head_cons]
    rw [List.map_const', List.length_range]

/-- Witness for C7 on the `sunset` palette at width 1, height 2. -/
theorem vertical_gradient_endpoints_witness :
    ∃ img, _vertical_gradient 1 2 [(255, 94, 77), (255, 184, 140), (253, 216, 193)]
        = some img
      ∧ img.head? = some (List.replicate 1 ((255, 94, 77) : RGB))
      ∧ img.getLast? = some (List.replicate 1 ((253, 216, 193) : RGB)) :=
  match vertical_gradient_endpoints 1 2
      [(255, 94, 77), (255, 184, 140), (253, 216, 193)] (by norm_num) (by decide) with
  | ⟨img, h1, _, h3, h4, _⟩ => ⟨img, h1, h3, h4⟩

/-! ### Claim C8 -/

/-- C8 counterexample: with `palette_name = None` (an "identical
arguments" pair of calls), the palette is redrawn from the RNG on each
call, so two calls can return different buffers — the function is not
idempotent for the random-palette argument. -/
theorem background_random_counterexample :
    create_gradient_background 1 2 none Direction.vertical 0
      ≠ create_gradient_background 1 2 none Direction.vertical 1 := by
  have h0 : create_gradient_background 1 2 none Direction.vertical 0
      = _vertical_gradient 1 2 [(255, 0, 128), (128, 0, 255), (0, 255, 255)] := rfl
  have h1 : create_gradient_background 1 2 none Direction.vertical 1
      = _vertical_gradient 1 2 [(255, 50, 100), (255, 150, 50), (255, 220, 100)] := rfl
  rw [h0, h1, vertical_two_rows 1 _ (by decide), vertical_two_rows 1 _ (by decide)]
  decide

/-- C8 amended: when the palette argument names a palette actually in
the registry, `create_gradient_background` (noise and animation off)
is deterministic — the RNG is never consulted and two calls with the
same arguments return identical buffers. -/
theorem background_deterministic (w hgt : ℕ) (n : String) (dir : Direction)
    (rng1 rng2 : ℕ) (hvalid : (lookupPalette n).isSome = true) :
    create_gradient_background w hgt (some n) dir rng1
      = create_gradient_background w hgt (some n) dir rng2 := by
  simp only [create_gradient_background, hvalid, if_true]

/-- Witness for C8 (amended): two calls on the `sunset` palette with
different RNG draws agree. -/
theorem background_deterministic_witness :
    (lookupPalette "sunset").isSome = true
    ∧ create_gradient_background 1 2 (some "sunset") Direction.vertical 0
      = create_gradient_background 1 2 (some "sunset") Direction.vertical 7 :=
  ⟨by decide,
   background_deterministic 1 2 "sunset" Direction.vertical 0 7 (by decide)⟩

/-! ### Lemmas about `parse_md_file` -/

theorem mem_nonEmptyOf (lines : List String) (x : String)
    (hx : x ∈ nonEmptyOf lines) : ∃ ln ∈ lines, pyStrip ln = x := by
  rw [nonEmptyOf] at hx
  have hm := (List.mem_filter.mp hx).1
  rw [strippedOf] at hm
  exact List.mem_map.mp hm

theorem mem_strippedOf_take (lines : List String) (x : String)
    (hx : x ∈ (strippedOf lines).take 4) : ∃ ln ∈ lines, pyStrip ln = x := by
  have hm := List.mem_of_mem_take hx
  rw [strippedOf] at hm
  exact List.mem_map.mp hm

theorem scanFallback_title_none :
    ∀ (l : List String) (a : Option String),
      (∀ x ∈ l, (hasColon x && isTitleKey (splitColon1 x).1) = false) →
      (scanFallback l none a).1 = none := by
  intro l
  induction l with
  | nil => intro a _; rfl
  | cons ln rest ih =>
    intro a h
    rw [scanFallback]
    by_cases hg : ln ≠ "" ∧ hasColon ln = true
    · have hx := h ln (List.mem_cons_self _ _)
      rw [hg.2] at hx
      simp only [Bool.true_and] at hx
      rw [if_pos hg, if_neg (by simp [hx])]
      exact ih _ (fun x hx' => h x (List.mem_cons_of_mem _ hx'))
    · rw [if_neg hg]
      exact ih a (fun x hx' => h x (List.mem_cons_of_mem _ hx'))

theorem scanFallback_author_none :
    ∀ (l : List String) (t : Option String),
      (∀ x ∈ l, (hasColon x && isAuthorKey (splitColon1 x).1) = false) →
      (scanFallback l t none).2 = none := by
  intro l
  induction l with
  | nil => intro t _; rfl
  | cons ln rest ih =>
    intro t h
    rw [scanFallback]
    by_cases hg : ln ≠ "" ∧ hasColon ln = true
    · have hx := h ln (List.mem_cons_self _ _)
      rw [hg.2] at hx
      simp only [Bool.true_and] at hx
      rw [if_pos hg]
      rw [show (if (none : Option String) = none ∧ isAuthorKey (splitColon1 ln).1
          then some (pyStrip (splitColon1 ln).2) else none) = none
        from if_neg (by simp [hx])]
      exact ih _ (fun x hx' => h x (List.mem_cons_of_mem _ hx'))
    · rw [if_neg hg]
      exact ih t (fun x hx' => h x (List.mem_cons_of_mem _ hx'))

theorem phase1Title_none (lines : List String)
    (ht : ∀ ln ∈ lines, isTitleHeaderLine ln = false) :
    phase1Title (nonEmptyOf lines) = none := by
  rcases hl : nonEmptyOf lines with _ | ⟨first, rest⟩
  · rfl
  · rw [phase1Title]
    simp only [List.head?_cons]
    rw [if_neg]
    rintro ⟨hcol, htk⟩
    have hfm : first ∈ nonEmptyOf lines := by
      rw [hl]; exact List.mem_cons_self _ _
    obtain ⟨ln₀, hln₀, he⟩ := mem_nonEmptyOf lines first hfm
    have hfalse := ht ln₀ hln₀
    rw [isTitleHeaderLine, he] at hfalse
    simp [hcol, htk] at hfalse

theorem phase1Author_none (lines : List String)
    (ha : ∀ ln ∈ lines, isAuthorHeaderLine ln = false) :
    phase1Author (nonEmptyOf lines) = none := by
  rcases hl : nonEmptyOf lines with _ | ⟨a, _ | ⟨b, t⟩⟩
  · rfl
  · rfl
  · rw [phase1Author]
    simp only [List.getElem?_cons_succ, List.getElem?_cons_zero]
    rw [if_neg]
    rintro ⟨hcol, hak⟩
    have hfm : b ∈ nonEmptyOf lines := by
      rw [hl]; exact List.mem_cons_of_mem _ (List.mem_cons_self _ _)
    obtain ⟨ln₀, hln₀, he⟩ := mem_nonEmptyOf lines b hfm
    have hfalse := ha ln₀ hln₀
    rw [isAuthorHeaderLine, he] at hfalse
    simp [hcol, hak] at hfalse

theorem parse_md_headers_title_none (lines : List String)
    (ht : ∀ ln ∈ lines, isTitleHeaderLine ln = false) :
    (parse_md_headers lines).1 = none := by
  have h1 := phase1Title_none lines ht
  rw [parse_md_headers]
  simp only [h1, true_or, if_pos]
  apply scanFallback_title_none
  intro x hx
  obtain ⟨ln₀, hln₀, he⟩ := mem_strippedOf_take lines x hx
  have hfalse := ht ln₀ hln₀
  rw [isTitleHeaderLine, he] at hfalse
  exact hfalse

theorem parse_md_headers_author_none (lines : List String)
    (ha : ∀ ln ∈ lines, isAuthorHeaderLine ln = false) :
    (parse_md_headers lines).2 = none := by
  have h1 := phase1Author_none lines ha
  rw [parse_md_headers]
  simp only [h1, or_true, if_pos]
  apply scanFallback_author_none
  intro x hx
  obtain ⟨ln₀, hln₀, he⟩ := mem_strippedOf_take lines x hx
  have hfalse := ha ln₀ hln₀
  rw [isAuthorHeaderLine, he] at hfalse
  exact hfalse

/-! ### Claim C10 -/

/-- C10: `parse_md_file` always returns a `(title, author, content)`
triple (it is a total function of the file's lines); when no line is
recognizable as a title header the title defaults to the file's base
name without extension, and when no line is recognizable as an author
header the author defaults to the empty string. -/
theorem parse_md_file_defaults (lines : List String) (stem : String) :
    ((∀ ln ∈ lines, isTitleHeaderLine ln = false) →
        (parse_md_file lines stem).1 = stem)
    ∧ ((∀ ln ∈ lines, isAuthorHeaderLine ln = false) →
        (parse_md_file lines stem).2.1 = "") := by
  constructor
  · intro ht
    have h := parse_md_headers_title_none lines ht
    rcases hq : parse_md_headers lines with ⟨t, a⟩
    rw [hq] at h
    have ht' : t = none := h
    subst ht'
    rw [parse_md_file, hq]
  · intro ha
    have h := parse_md_headers_author_none lines ha
    rcases hq : parse_md_headers lines with ⟨t, a⟩
    rw [hq] at h
    have ha' : a = none := h
    subst ha'
    rw [parse_md_file, hq]

/-- Witness for C10 on a header-free two-line file. -/
theorem parse_md_file_defaults_witness :
    (∀ ln ∈ ["hello", "world again"], isTitleHeaderLine ln = false)
    ∧ (∀ ln ∈ ["hello", "world again"], isAuthorHeaderLine ln = false)
    ∧ (parse_md_file ["hello", "world again"] "poem").1 = "poem"
    ∧ (parse_md_file ["hello", "world again"] "poem").2.1 = "" :=
  ⟨by decide, by decide,
   (parse_md_file_defaults ["hello", "world again"] "poem").1 (by decide),
   (parse_md_file_defaults ["hello", "world again"] "poem").2 (by decide)⟩

/-- Witness for C9: in a two-entry list, the pause entry is omitted and
the text entry is kept. -/
theorem pause_segments_no_layer_witness :
    ((⟨"", 0, 1⟩ : Subtitle) ∉ textLayers [⟨"", 0, 1⟩, ⟨"hi", 1, 1⟩])
    ∧ (⟨"hi", 1, 1⟩ : Subtitle) ∈ textLayers [⟨"", 0, 1⟩, ⟨"hi", 1, 1⟩] :=
  ⟨(pause_segments_no_layer [⟨"", 0, 1⟩, ⟨"hi", 1, 1⟩] ⟨"", 0, 1⟩ (by simp)).1
      (Or.inl rfl),
   (pause_segments_no_layer [⟨"", 0, 1⟩, ⟨"hi", 1, 1⟩] ⟨"hi", 1, 1⟩ (by simp)).2
      ⟨by decide, by norm_num⟩⟩

end PoetryReader


